import Mathlib

/-!
Shallow embedding of `src/dynamodb.js` from the aws-toolbelt repository.

The module is a convenience layer over the DynamoDB client.  The logic that
the specification describes is pure: chunking of batch-write requests,
construction of query/scan parameter objects (string expression building and
operator allow-lists), and a recursive auto-pagination loop.  Remote calls
are modelled by passing the sequence of service responses in as data; the
functions below return the requests they would issue together with the
values they produce, mirroring the JavaScript statement by statement.
-/

namespace AwsToolbelt

/-- JavaScript attribute values that flow through the helpers (strings,
numbers, or `undefined` for absent object fields). -/
inductive JSVal where
  | undef
  | str (s : String)
  | num (n : Int)
deriving DecidableEq, Repr

/-- Model of JavaScript `String.prototype.includes` on unpacked strings:
`sub` occurs contiguously somewhere in `s`. -/
def listIncludes (sub : List Char) : List Char → Bool
  | [] => sub.isEmpty
  | c :: rest => sub.isPrefixOf (c :: rest) || listIncludes sub rest

/-- `jsIncludes s sub` models `s.includes(sub)` from JavaScript. -/
def jsIncludes (s sub : String) : Bool :=
  listIncludes sub.data s.data

/-! ### batchWrite (src/dynamodb.js lines 100-148)

`batchWrite` splits the request list into a map `{0: [...], 1: [...], ...}`
of chunks of at most 25 requests and then drives `_batchWrite` through the
chunks sequentially.  The map with keys `0..n` is modelled as a list of
chunks; `map[Object.keys(map).length - 1]` is its last element. -/

/-- One iteration of the `requests.forEach` loop in `batchWrite`: look at the
last chunk (`index = Object.keys(map).length - 1`); if it already holds 25
requests start a fresh chunk with this request, otherwise push the request
onto it.  The map always holds at least one chunk (it starts as `{0: []}`),
so the `none` branch is unreachable. -/
def batchWriteStep (map : List (List α)) (request : α) : List (List α) :=
  match map.getLast? with
  | none => [[request]]
  | some last =>
    if 25 ≤ last.length then map ++ [[request]]
    else map.dropLast ++ [last ++ [request]]

/-- The chunk map built by `batchWrite` before it calls `_batchWrite`:
starting from `{0: []}`, fold `batchWriteStep` over the requests. -/
def batchWriteChunks (requests : List α) : List (List α) :=
  requests.foldl batchWriteStep [[]]

/-- A single `documentClient.batchWrite` call: the table name and the item
list passed under `RequestItems`. -/
structure BatchCall (α : Type) where
  tableName : String
  items : List α
deriving DecidableEq, Repr

/-- The service's reply to the `index`-th batch-write call, as observed by the
callback in `_batchWrite`:
* `none` — an error (`err` set, `data` absent);
* `some none` — success with no `UnprocessedItems[tableName]` key;
* `some (some items)` — success with `UnprocessedItems[tableName]` present
  (a truthy array), which stops the loop. -/
def BatchResponses (α : Type) := Nat → Option (Option (List α))

/-- `_batchWrite` (lines 127-148): issue the call for `map[index]`, then in
the callback stop if `data.UnprocessedItems[tableName]` is present, and
otherwise, when `keepGoing` and more chunks remain, recurse on `index + 1`.
Returns the trace of issued calls.  Note the JavaScript checks `data && ...`
first, so an error (no `data`) still falls through to the `keepGoing`
branch. -/
def _batchWrite (responses : BatchResponses α) (map : List (List α))
    (tableName : String) (keepGoing : Bool) (index : Nat) : List (BatchCall α) :=
  let call : BatchCall α := ⟨tableName, map.getD index []⟩
  match responses index with
  | some (some _) => [call]
  | _ =>
    if keepGoing then
      if h : map.length - 1 ≤ index then [call]
      else call :: _batchWrite responses map tableName keepGoing (index + 1)
    else [call]
termination_by map.length - index
decreasing_by simp_wf; omega

/-- `batchWrite` (lines 100-115): chunk the requests and run `_batchWrite`
from index 0 with `keepGoing = true`; the result is the trace of issued
batch-write calls. -/
def batchWrite (responses : BatchResponses α) (requests : List α)
    (tableName : String) : List (BatchCall α) :=
  _batchWrite responses (batchWriteChunks requests) tableName true 0

/-! ### Auto-pagination (src/dynamodb.js lines 55-63, 84-91, 306-326)

`_autoPaginate` repeatedly calls `documentClient[method]` with the original
params plus, from the second call on, an `ExclusiveStartKey`.  The service is
modelled by the list of page responses it returns to the successive calls;
items have type `α`, continuation keys type `κ`, and the untouched base
params an abstract type `P`.  Each issued request is the pair of the base
params (the `{...params}` spread) and the optional `ExclusiveStartKey`. -/

/-- One page response from `query`/`scan`. -/
structure Page (α κ : Type) where
  Count : Nat
  ScannedCount : Nat
  Items : List α
  LastEvaluatedKey : Option κ
deriving DecidableEq, Repr

/-- The mutable accumulator of `_autoPaginate` (initialised to
`{Count: 0, ScannedCount: 0, Items: []}` by the two wrappers). -/
structure AggregatedResults (α : Type) where
  Count : Nat
  ScannedCount : Nat
  Items : List α
deriving DecidableEq, Repr

/-- The recursion of `_autoPaginate` after the method check: issue the
request `(params, lastEvaluatedKey)`, fold the response into the
accumulator, and recurse on the response's `LastEvaluatedKey` when present.
Returns the trace of issued requests and the final accumulator, or `none`
when the supplied response list runs out before a page without
`LastEvaluatedKey` arrives. -/
def _autoPaginateGo (pages : List (Page α κ)) (params : P)
    (aggregatedResults : AggregatedResults α) (lastEvaluatedKey : Option κ) :
    Option (List (P × Option κ) × AggregatedResults α) :=
  match pages with
  | [] => none
  | results :: rest =>
    let queryParams : P × Option κ := (params, lastEvaluatedKey)
    let agg : AggregatedResults α :=
      { Count := aggregatedResults.Count + results.Count
        ScannedCount := aggregatedResults.ScannedCount + results.ScannedCount
        Items := aggregatedResults.Items ++ results.Items }
    match results.LastEvaluatedKey with
    | some k =>
      match _autoPaginateGo rest params agg (some k) with
      | some (trace, final) => some (queryParams :: trace, final)
      | none => none
    | none => some ([queryParams], agg)

/-- `_autoPaginate` (lines 306-326): reject any method other than `"scan"`
or `"query"`, then run the pagination loop. -/
def _autoPaginate (method : String) (pages : List (Page α κ)) (params : P)
    (aggregatedResults : AggregatedResults α) (lastEvaluatedKey : Option κ) :
    Except String (List (P × Option κ) × AggregatedResults α) :=
  if method != "scan" && method != "query" then
    .error ("Invalid method " ++ method ++ " provided.")
  else
    match _autoPaginateGo pages params aggregatedResults lastEvaluatedKey with
    | some r => .ok r
    | none => .error "no further page response"

/-- `queryTableWithAutoPagination` (lines 55-63): run `_autoPaginate` with
method `"query"`, the constructed query params, and a fresh accumulator. -/
def queryTableWithAutoPagination (pages : List (Page α κ)) (params : P) :
    Except String (List (P × Option κ) × AggregatedResults α) :=
  _autoPaginate "query" pages params ⟨0, 0, []⟩ none

/-- `scanTableWithAutoPagination` (lines 84-91): run `_autoPaginate` with
method `"scan"`, the constructed scan params, and a fresh accumulator. -/
def scanTableWithAutoPagination (pages : List (Page α κ)) (params : P) :
    Except String (List (P × Option κ) × AggregatedResults α) :=
  _autoPaginate "scan" pages params ⟨0, 0, []⟩ none

/-! ### Query parameter construction (src/dynamodb.js lines 175-207)

`_constructQueryParams` builds the params object for `documentClient.query`.
Its last argument is either absent, a plain string (then a `begins_with`
condition on the sort key), or a key-condition object `{operation, value,
value1, value2}`. -/

/-- A sort-key condition object: `operation` defaults to `"="` when absent;
`value`, `value1`, `value2` are `JSVal.undef` when not supplied. -/
structure KeyCondition where
  operation : Option String
  value : JSVal
  value1 : JSVal
  value2 : JSVal
deriving DecidableEq, Repr

/-- The `sortKeyValueOrKeyCondition` argument: absent, a string, or a
key-condition object. -/
inductive SortKeyArg where
  | absent
  | str (s : String)
  | cond (c : KeyCondition)
deriving DecidableEq, Repr

/-- The params object passed to `documentClient.query`. -/
structure QueryParams where
  TableName : String
  KeyConditionExpression : String
  ExpressionAttributeValues : List (String × JSVal)
deriving DecidableEq, Repr

/-- The sort-key operation allow-list of `_constructQueryParams`
(line 189). -/
def validQueryOperations : List String :=
  ["=", ">", ">=", "<", "<=", "between", "begins_with"]

/-- `_constructQueryParams` (lines 175-207).  Attribute-value maps are
modelled as insertion-ordered association lists.  JavaScript's
`if (sortKeyValueKeyCondition)` treats the empty string as falsy, so an
empty string leaves the params untouched, like an absent argument. -/
def _constructQueryParams (tableName primaryKey : String) (primaryKeyValue : JSVal)
    (sortKey : String) (sortKeyValueKeyCondition : SortKeyArg) :
    Except String QueryParams :=
  let params : QueryParams :=
    { TableName := tableName
      KeyConditionExpression := primaryKey ++ " = :pkvalue"
      ExpressionAttributeValues := [(":pkvalue", primaryKeyValue)] }
  match sortKeyValueKeyCondition with
  | .absent => .ok params
  | .str s =>
    if s == "" then .ok params
    else .ok { params with
      KeyConditionExpression :=
        params.KeyConditionExpression ++ " and begins_with(" ++ sortKey ++ ", :skvalue)"
      ExpressionAttributeValues :=
        params.ExpressionAttributeValues ++ [(":skvalue", JSVal.str s)] }
  | .cond c =>
    let operation := c.operation.getD "="
    let isValidOperation := validQueryOperations.contains operation
    if !isValidOperation then
      .error ("Invalid operation \"" ++ operation ++ "\" used.")
    else if operation == "begins_with" then
      .ok { params with
        KeyConditionExpression :=
          params.KeyConditionExpression ++ " and begins_with(" ++ sortKey ++ ", :skvalue)"
        ExpressionAttributeValues :=
          params.ExpressionAttributeValues ++ [(":skvalue", c.value)] }
    else if operation == "between" then
      .ok { params with
        KeyConditionExpression :=
          params.KeyConditionExpression ++ " and " ++ sortKey ++ " between :skvalue1 and :skvalue2 "
        ExpressionAttributeValues :=
          params.ExpressionAttributeValues ++ [(":skvalue1", c.value1), (":skvalue2", c.value2)] }
    else
      .ok { params with
        KeyConditionExpression :=
          params.KeyConditionExpression ++ " and " ++ sortKey ++ " " ++ operation ++ " :skvalue"
        ExpressionAttributeValues :=
          params.ExpressionAttributeValues ++ [(":skvalue", c.value)] }

/-! ### Scan filters (src/dynamodb.js lines 217-294) -/

/-- A scan filter object `{attribute, operation, value, value1, value2}`;
`operation` defaults to `"="` when absent.  (`attribute` is a reserved word
in Lean, so the field is called `attr` here.) -/
structure Filter where
  attr : String
  operation : Option String
  value : JSVal
  value1 : JSVal
  value2 : JSVal
deriving DecidableEq, Repr

/-- The pair returned by `_buildFilterQuery`. -/
structure FilterQuery where
  expression : String
  expressionAttributeValues : List (String × JSVal)
deriving DecidableEq, Repr

/-- The filter operation allow-list of `_buildFilterQuery` (line 255). -/
def validFilterOperations : List String :=
  ["=", "!=", ">", ">=", "<", "<=", "between", "exists", "not exists",
    "contains", "not contains", "begins_with"]

/-- `_buildFilterQuery` (lines 253-294).  The `begins_with`/`contains`
branch tests `operation.includes(...)`, so `"not contains"` also lands
there and produces a `not contains(attr, :attrValue)` expression. -/
def _buildFilterQuery (filter : Filter) : Except String FilterQuery :=
  let attr := filter.attr
  let operation := filter.operation.getD "="
  let isValidOperation := validFilterOperations.contains operation
  if !isValidOperation then
    .error ("Invalid operation \"" ++ operation ++ "\" used.")
  else if jsIncludes operation "begins_with" || jsIncludes operation "contains" then
    .ok { expression := operation ++ "(" ++ attr ++ ", :" ++ attr ++ "Value)"
          expressionAttributeValues := [(":" ++ attr ++ "Value", filter.value)] }
  else if operation == "exists" then
    .ok { expression := "attribute_exists(" ++ attr ++ ")"
          expressionAttributeValues := [] }
  else if operation == "not exists" then
    .ok { expression := "attribute_not_exists(" ++ attr ++ ")"
          expressionAttributeValues := [] }
  else if operation == "between" then
    .ok { expression := attr ++ " between :" ++ attr ++ "Value1 and :" ++
            attr ++ "Value2"
          expressionAttributeValues :=
            [(":" ++ attr ++ "Value1", filter.value1),
              (":" ++ attr ++ "Value2", filter.value2)] }
  else
    .ok { expression := attr ++ " " ++ operation ++ " :" ++ attr ++ "Value"
          expressionAttributeValues := [(":" ++ attr ++ "Value", filter.value)] }

/-- The params object passed to `documentClient.scan`; `FilterExpression`
and `ExpressionAttributeValues` stay absent (`none`) when no filter is
given.  The spread `{...old, ...new}` on the attribute values is modelled
as list append: a lookup that prefers later entries reads it exactly as the
merged JavaScript object. -/
structure ScanParams where
  TableName : String
  FilterExpression : Option String
  ExpressionAttributeValues : Option (List (String × JSVal))
deriving DecidableEq, Repr

/-- The `filters` argument of `scanTable` /
`scanTableWithAutoPagination`: absent, a single filter object, or an array
of filters. -/
inductive FiltersArg where
  | absent
  | one (filter : Filter)
  | many (filters : List Filter)
deriving DecidableEq, Repr

/-- The `filters.forEach((filter, i) => ...)` loop of `_constructScanParams`
(lines 224-236): the first filter initialises `FilterExpression` and
`ExpressionAttributeValues`; every later one appends `' and <expression>'`
and spreads its bindings in.  An error from `_buildFilterQuery`
propagates. -/
def scanFilterFold : List Filter → Nat → ScanParams → Except String ScanParams
  | [], _, params => .ok params
  | filter :: rest, i, params => do
    let fq ← _buildFilterQuery filter
    let params' :=
      if 0 < i then
        { params with
          FilterExpression :=
            some (params.FilterExpression.getD "" ++ " and " ++ fq.expression)
          ExpressionAttributeValues :=
            some (params.ExpressionAttributeValues.getD [] ++
              fq.expressionAttributeValues) }
      else
        { params with
          FilterExpression := some fq.expression
          ExpressionAttributeValues := some fq.expressionAttributeValues }
    scanFilterFold rest (i + 1) params'

/-- `_constructScanParams` (lines 217-244). -/
def _constructScanParams (tableName : String) (filters : FiltersArg) :
    Except String ScanParams :=
  let params : ScanParams := ⟨tableName, none, none⟩
  match filters with
  | .absent => .ok params
  | .many fs => scanFilterFold fs 0 params
  | .one f => do
    let fq ← _buildFilterQuery f
    .ok { params with
      FilterExpression := some fq.expression
      ExpressionAttributeValues := some fq.expressionAttributeValues }

/-- The specification's reading of the combined filter expression: the
individual expressions joined by `" and "` in list order. -/
def joinWithAnd : List String → String
  | [] => ""
  | [e] => e
  | e :: rest => e ++ " and " ++ joinWithAnd rest

/-- Build every filter's query in order, propagating the first error.
`buildFilterQueries fs = .ok l` states C6's hypothesis that every
operation in `fs` passes the allow-list. -/
def buildFilterQueries : List Filter → Except String (List FilterQuery)
  | [] => .ok []
  | f :: rest => do
    let fq ← _buildFilterQuery f
    let fqs ← buildFilterQueries rest
    .ok (fq :: fqs)

/-! ### Lemmas and claim theorems -/

lemma except_ok_bind (a : γ) (f : γ → Except ε δ) : (Except.ok a >>= f) = f a := rfl

lemma except_error_bind (e : ε) (f : γ → Except ε δ) :
    ((Except.error e : Except ε γ) >>= f) = Except.error e := rfl

lemma batchWriteStep_concat (done : List (List α)) (cur : List α) (r : α) :
    batchWriteStep (done ++ [cur]) r =
      if 25 ≤ cur.length then (done ++ [cur]) ++ [[r]] else done ++ [cur ++ [r]] := by
  simp [batchWriteStep]

/-- Invariant of the `forEach` loop in `batchWrite`: starting from completed
chunks `done` (each of exactly 25 requests) and a current chunk `cur` of at
most 25 requests, the fold again ends in that shape and the concatenation of
all chunks grows by exactly the processed requests, in order. -/
lemma batchWrite_foldl_spec (requests : List α) :
    ∀ (done : List (List α)) (cur : List α),
      (∀ c ∈ done, c.length = 25) → cur.length ≤ 25 →
      ∃ done' cur',
        requests.foldl batchWriteStep (done ++ [cur]) = done' ++ [cur'] ∧
        (∀ c ∈ done', c.length = 25) ∧ cur'.length ≤ 25 ∧
        (done' ++ [cur']).flatten = (done ++ [cur]).flatten ++ requests := by
  induction requests with
  | nil =>
    intro done cur hdone hcur
    exact ⟨done, cur, rfl, hdone, hcur, by simp⟩
  | cons r rs ih =>
    intro done cur hdone hcur
    rw [List.foldl_cons, batchWriteStep_concat]
    by_cases hfull : 25 ≤ cur.length
    · have hcur25 : cur.length = 25 := le_antisymm hcur hfull
      rw [if_pos hfull]
      obtain ⟨done', cur', heq, hdone', hcur', hjoin⟩ :=
        ih (done ++ [cur]) [r]
          (by intro c hc
              rcases List.mem_append.1 hc with h | h
              · exact hdone c h
              · simpa [List.mem_singleton.mp h] using hcur25)
          (by simp)
      refine ⟨done', cur', by simpa using heq, hdone', hcur', ?_⟩
      rw [hjoin]; simp
    · rw [if_neg hfull]
      obtain ⟨done', cur', heq, hdone', hcur', hjoin⟩ :=
        ih done (cur ++ [r]) hdone (by simp; omega)
      refine ⟨done', cur', heq, hdone', hcur', ?_⟩
      rw [hjoin]; simp

/-- C1: `batchWrite` splits every request list into consecutive chunks of at
most 25 items each, in input order: the concatenation of the chunks is the
original request list, every chunk before the last holds exactly 25 items,
and no chunk holds more than 25. -/
theorem batchWrite_chunks_correct (α : Type) (requests : List α) :
    (batchWriteChunks requests).flatten = requests ∧
    (∀ c ∈ (batchWriteChunks requests).dropLast, c.length = 25) ∧
    ∀ c ∈ batchWriteChunks requests, c.length ≤ 25 := by
  obtain ⟨done', cur', heq, hdone', hcur', hjoin⟩ :=
    batchWrite_foldl_spec requests ([] : List (List α)) [] (by simp) (by simp)
  have hchunks : batchWriteChunks requests = done' ++ [cur'] := by
    simpa [batchWriteChunks] using heq
  refine ⟨?_, ?_, ?_⟩
  · rw [hchunks, hjoin]; simp
  · rw [hchunks, List.dropLast_concat]
    exact hdone'
  · rw [hchunks]
    intro c hc
    rcases List.mem_append.1 hc with h | h
    · exact (hdone' c h).le
    · simpa [List.mem_singleton.mp h] using hcur'

/-- C10: on the empty request list `batchWrite` still builds a chunk map with
exactly one, empty chunk (`{0: []}` untouched by the loop), and issues
exactly one batch-write call whose item list for the table is empty. -/
theorem batchWrite_empty_requests (responses : BatchResponses Nat) (t : String)
    (h : responses 0 = some none) :
    batchWriteChunks ([] : List Nat) = [[]] ∧
    batchWrite responses ([] : List Nat) t = [⟨t, []⟩] := by
  refine ⟨rfl, ?_⟩
  rw [batchWrite, _batchWrite, h]
  simp [batchWriteChunks]

theorem batchWrite_empty_requests_witness :
    (fun _ : Nat => (some none : Option (Option (List Nat)))) 0 = some none ∧
    (batchWriteChunks ([] : List Nat) = [[]] ∧
      batchWrite (fun _ => some none) ([] : List Nat) "books" = [⟨"books", []⟩]) :=
  ⟨rfl, batchWrite_empty_requests (fun _ => some none) "books" rfl⟩

/-- Exact behaviour of the pagination loop on a response sequence whose
pages all carry a `LastEvaluatedKey` until a final page `p` without one:
the loop consumes exactly `pre ++ [p]`, ignores any later responses, issues
one request per consumed page — the first with the initial key, each later
one keyed by the previous page's `LastEvaluatedKey` — and accumulates counts
and items of the consumed pages onto the accumulator. -/
lemma autoPaginateGo_spec (pre : List (Page α κ)) (p : Page α κ)
    (rest : List (Page α κ)) (params : P) :
    ∀ (agg : AggregatedResults α) (lek : Option κ),
      (∀ q ∈ pre, q.LastEvaluatedKey.isSome) → p.LastEvaluatedKey = none →
      _autoPaginateGo (pre ++ p :: rest) params agg lek =
        some ((params, lek) :: pre.map (fun q => (params, q.LastEvaluatedKey)),
          { Count := agg.Count + ((pre ++ [p]).map Page.Count).sum
            ScannedCount := agg.ScannedCount + ((pre ++ [p]).map Page.ScannedCount).sum
            Items := agg.Items ++ ((pre ++ [p]).map Page.Items).flatten }) := by
  induction pre with
  | nil =>
    intro agg lek _ hp
    simp [_autoPaginateGo, hp]
  | cons q pre ih =>
    intro agg lek hpre hp
    obtain ⟨k, hk⟩ := Option.isSome_iff_exists.1 (hpre q (List.mem_cons_self q pre))
    have ihq := ih (⟨agg.Count + q.Count, agg.ScannedCount + q.ScannedCount,
        agg.Items ++ q.Items⟩ : AggregatedResults α) (some k)
      (fun r hr => hpre r (List.mem_cons_of_mem q hr)) hp
    simp only [List.cons_append, _autoPaginateGo, hk, List.append_eq]
    rw [ihq]
    simp [hk, Nat.add_assoc, List.append_assoc]

/-- C2: over any response sequence whose last page has no `LastEvaluatedKey`
(and whose earlier pages, having triggered further requests, each carry
one), `queryTableWithAutoPagination` and `scanTableWithAutoPagination`
return an aggregate whose `Items` is the concatenation of the pages' `Items`
in page order and whose `Count` and `ScannedCount` are the sums of the
pages' fields, added onto the initial accumulator
`{Count: 0, ScannedCount: 0, Items: []}`. -/
theorem autoPagination_accumulates (α κ P : Type) (pre : List (Page α κ))
    (p : Page α κ) (params : P)
    (hpre : ∀ q ∈ pre, q.LastEvaluatedKey.isSome) (hp : p.LastEvaluatedKey = none) :
    ∃ trace,
      queryTableWithAutoPagination (pre ++ [p]) params = .ok (trace,
        { Count := 0 + ((pre ++ [p]).map Page.Count).sum
          ScannedCount := 0 + ((pre ++ [p]).map Page.ScannedCount).sum
          Items := [] ++ ((pre ++ [p]).map Page.Items).flatten }) ∧
      scanTableWithAutoPagination (pre ++ [p]) params = .ok (trace,
        { Count := 0 + ((pre ++ [p]).map Page.Count).sum
          ScannedCount := 0 + ((pre ++ [p]).map Page.ScannedCount).sum
          Items := [] ++ ((pre ++ [p]).map Page.Items).flatten }) := by
  have hgo := autoPaginateGo_spec pre p [] params
    (⟨0, 0, []⟩ : AggregatedResults α) none hpre hp
  refine ⟨(params, none) :: pre.map (fun q => (params, q.LastEvaluatedKey)), ?_, ?_⟩ <;>
    simp [queryTableWithAutoPagination, scanTableWithAutoPagination, _autoPaginate, hgo]

theorem autoPagination_accumulates_witness :
    (∀ q ∈ [(⟨1, 2, [10], some 7⟩ : Page Nat Nat)], q.LastEvaluatedKey.isSome) ∧
    (⟨2, 3, [20, 30], none⟩ : Page Nat Nat).LastEvaluatedKey = none ∧
    ∃ trace,
      queryTableWithAutoPagination
          ([⟨1, 2, [10], some 7⟩, ⟨2, 3, [20, 30], none⟩] : List (Page Nat Nat)) "params" =
        .ok (trace, ⟨3, 5, [10, 20, 30]⟩) ∧
      scanTableWithAutoPagination
          ([⟨1, 2, [10], some 7⟩, ⟨2, 3, [20, 30], none⟩] : List (Page Nat Nat)) "params" =
        .ok (trace, ⟨3, 5, [10, 20, 30]⟩) :=
  ⟨by decide, rfl,
    autoPagination_accumulates Nat Nat String [⟨1, 2, [10], some 7⟩]
      ⟨2, 3, [20, 30], none⟩ "params" (by decide) rfl⟩

/-- C7: whenever some page response lacks a `LastEvaluatedKey`,
`_autoPaginate` terminates with a result.  It issues exactly one request
per response up to and including the first keyless one (a follow-up request
exists exactly for responses carrying a `LastEvaluatedKey`), and the outcome
is the same as if no responses existed beyond that page: the loop returns
as soon as a response has no key. -/
theorem autoPaginate_terminates (α κ P : Type) (method : String)
    (pre : List (Page α κ)) (p : Page α κ) (rest : List (Page α κ)) (params : P)
    (hm : method = "scan" ∨ method = "query")
    (hpre : ∀ q ∈ pre, q.LastEvaluatedKey.isSome) (hp : p.LastEvaluatedKey = none) :
    ∃ r, _autoPaginate method (pre ++ p :: rest) params ⟨0, 0, []⟩ none = .ok r ∧
      r.1.length = pre.length + 1 ∧
      _autoPaginate method (pre ++ p :: rest) params ⟨0, 0, []⟩ none =
        _autoPaginate method (pre ++ [p]) params ⟨0, 0, []⟩ none := by
  have hgo := autoPaginateGo_spec pre p rest params
    (⟨0, 0, []⟩ : AggregatedResults α) none hpre hp
  have hgo0 := autoPaginateGo_spec pre p [] params
    (⟨0, 0, []⟩ : AggregatedResults α) none hpre hp
  rcases hm with hm | hm <;> subst hm <;>
    refine ⟨((params, none) :: pre.map (fun q => (params, q.LastEvaluatedKey)),
      { Count := 0 + ((pre ++ [p]).map Page.Count).sum
        ScannedCount := 0 + ((pre ++ [p]).map Page.ScannedCount).sum
        Items := [] ++ ((pre ++ [p]).map Page.Items).flatten }), ?_, ?_, ?_⟩ <;>
    simp [_autoPaginate, hgo, hgo0]

theorem autoPaginate_terminates_witness :
    ("query" = "scan" ∨ "query" = "query") ∧
    (∀ q ∈ [(⟨1, 1, [5], some 3⟩ : Page Nat Nat)], q.LastEvaluatedKey.isSome) ∧
    (⟨1, 1, [6], none⟩ : Page Nat Nat).LastEvaluatedKey = none ∧
    ∃ r, _autoPaginate "query"
        ([⟨1, 1, [5], some 3⟩, ⟨1, 1, [6], none⟩, ⟨9, 9, [7], some 4⟩] : List (Page Nat Nat))
        "params" ⟨0, 0, []⟩ none = .ok r ∧
      r.1.length = 2 ∧
      _autoPaginate "query"
          ([⟨1, 1, [5], some 3⟩, ⟨1, 1, [6], none⟩, ⟨9, 9, [7], some 4⟩] : List (Page Nat Nat))
          "params" ⟨0, 0, []⟩ none =
        _autoPaginate "query" ([⟨1, 1, [5], some 3⟩, ⟨1, 1, [6], none⟩] : List (Page Nat Nat))
          "params" ⟨0, 0, []⟩ none :=
  ⟨Or.inr rfl, by decide, rfl,
    autoPaginate_terminates Nat Nat String "query" [⟨1, 1, [5], some 3⟩]
      ⟨1, 1, [6], none⟩ [⟨9, 9, [7], some 4⟩] "params" (Or.inr rfl) (by decide) rfl⟩

/-- C8: auto-pagination is sequential request chaining: the trace of issued
requests (one per received response, each computed only after the previous
response arrived) starts with the original params and no `ExclusiveStartKey`,
and every following request pairs those same params with exactly the
`LastEvaluatedKey` of the immediately preceding response. -/
theorem autoPaginate_sequential_requests (α κ P : Type) (pre : List (Page α κ))
    (p : Page α κ) (rest : List (Page α κ)) (params : P)
    (hpre : ∀ q ∈ pre, q.LastEvaluatedKey.isSome) (hp : p.LastEvaluatedKey = none) :
    ∃ agg,
      _autoPaginate "query" (pre ++ p :: rest) params ⟨0, 0, []⟩ none =
        .ok ((params, none) :: pre.map (fun q => (params, q.LastEvaluatedKey)), agg) ∧
      _autoPaginate "scan" (pre ++ p :: rest) params ⟨0, 0, []⟩ none =
        .ok ((params, none) :: pre.map (fun q => (params, q.LastEvaluatedKey)), agg) := by
  have hgo := autoPaginateGo_spec pre p rest params
    (⟨0, 0, []⟩ : AggregatedResults α) none hpre hp
  refine ⟨{ Count := 0 + ((pre ++ [p]).map Page.Count).sum
            ScannedCount := 0 + ((pre ++ [p]).map Page.ScannedCount).sum
            Items := [] ++ ((pre ++ [p]).map Page.Items).flatten }, ?_, ?_⟩ <;>
    simp [_autoPaginate, hgo]

theorem autoPaginate_sequential_requests_witness :
    (∀ q ∈ [(⟨1, 1, [5], some 3⟩ : Page Nat Nat), ⟨2, 2, [8], some 4⟩],
      q.LastEvaluatedKey.isSome) ∧
    (⟨1, 1, [6], none⟩ : Page Nat Nat).LastEvaluatedKey = none ∧
    ∃ agg,
      _autoPaginate "query"
          ([⟨1, 1, [5], some 3⟩, ⟨2, 2, [8], some 4⟩, ⟨1, 1, [6], none⟩] : List (Page Nat Nat))
          "params" ⟨0, 0, []⟩ none =
        .ok ([("params", none), ("params", some 3), ("params", some 4)], agg) ∧
      _autoPaginate "scan"
          ([⟨1, 1, [5], some 3⟩, ⟨2, 2, [8], some 4⟩, ⟨1, 1, [6], none⟩] : List (Page Nat Nat))
          "params" ⟨0, 0, []⟩ none =
        .ok ([("params", none), ("params", some 3), ("params", some 4)], agg) :=
  ⟨by decide, rfl,
    autoPaginate_sequential_requests Nat Nat String
      [⟨1, 1, [5], some 3⟩, ⟨2, 2, [8], some 4⟩] ⟨1, 1, [6], none⟩ [] "params"
      (by decide) rfl⟩

/-- C4: for a sort-key condition given as an object, `_constructQueryParams`
raises an error exactly when the condition's operation (defaulting to `"="`
when absent) is outside the allow-list `=, >, >=, <, <=, between,
begins_with`; on every allow-listed operation it succeeds. -/
theorem constructQueryParams_error_iff (tableName primaryKey : String)
    (primaryKeyValue : JSVal) (sortKey : String) (c : KeyCondition) :
    (∃ ps, _constructQueryParams tableName primaryKey primaryKeyValue sortKey
        (.cond c) = .ok ps) ↔
      validQueryOperations.contains (c.operation.getD "=") = true := by
  unfold _constructQueryParams
  cases h : validQueryOperations.contains (c.operation.getD "=") <;> simp only [h]
  · simp
  · refine iff_of_true ?_ trivial
    simp only [Bool.not_true, Bool.false_eq_true, if_false]
    split
    · exact ⟨_, rfl⟩
    split
    · exact ⟨_, rfl⟩
    · exact ⟨_, rfl⟩

/-- C5: for every table, key names/values and allow-listed sort-key
operation, `_constructQueryParams` assembles exactly the documented
expression: the base condition `<pk> = :pkvalue` extended with
`' and begins_with(<sk>, :skvalue)'` for `begins_with`, with
`' and <sk> between :skvalue1 and :skvalue2 '` for `between`, and with
`' and <sk> <op> :skvalue'` for the comparison operators, the attribute
values binding each placeholder to the supplied value. -/
theorem constructQueryParams_expressions (tableName primaryKey : String)
    (primaryKeyValue : JSVal) (sortKey : String) (c : KeyCondition) :
    (c.operation.getD "=" = "begins_with" →
      _constructQueryParams tableName primaryKey primaryKeyValue sortKey (.cond c) =
        .ok { TableName := tableName
              KeyConditionExpression :=
                primaryKey ++ " = :pkvalue" ++ " and begins_with(" ++ sortKey ++ ", :skvalue)"
              ExpressionAttributeValues :=
                [(":pkvalue", primaryKeyValue), (":skvalue", c.value)] }) ∧
    (c.operation.getD "=" = "between" →
      _constructQueryParams tableName primaryKey primaryKeyValue sortKey (.cond c) =
        .ok { TableName := tableName
              KeyConditionExpression :=
                primaryKey ++ " = :pkvalue" ++ " and " ++ sortKey ++
                  " between :skvalue1 and :skvalue2 "
              ExpressionAttributeValues :=
                [(":pkvalue", primaryKeyValue), (":skvalue1", c.value1),
                  (":skvalue2", c.value2)] }) ∧
    (c.operation.getD "=" ∈ ["=", ">", ">=", "<", "<="] →
      _constructQueryParams tableName primaryKey primaryKeyValue sortKey (.cond c) =
        .ok { TableName := tableName
              KeyConditionExpression :=
                primaryKey ++ " = :pkvalue" ++ " and " ++ sortKey ++ " " ++
                  c.operation.getD "=" ++ " :skvalue"
              ExpressionAttributeValues :=
                [(":pkvalue", primaryKeyValue), (":skvalue", c.value)] }) := by
  refine ⟨fun h => ?_, fun h => ?_, fun h => ?_⟩
  · simp [_constructQueryParams, h, validQueryOperations]
  · simp [_constructQueryParams, h, validQueryOperations]
  · have h' : c.operation.getD "=" = "=" ∨ c.operation.getD "=" = ">" ∨
        c.operation.getD "=" = ">=" ∨ c.operation.getD "=" = "<" ∨
        c.operation.getD "=" = "<=" := by simpa using h
    rcases h' with h' | h' | h' | h' | h' <;>
      simp [_constructQueryParams, h', validQueryOperations]

theorem constructQueryParams_expressions_witness :
    ((⟨some "between", JSVal.undef, JSVal.num 946702800000,
        JSVal.num 1262322000000⟩ : KeyCondition).operation.getD "=" = "between") ∧
    _constructQueryParams "books" "author" (JSVal.str "stephen king") "created"
        (.cond ⟨some "between", JSVal.undef, JSVal.num 946702800000,
          JSVal.num 1262322000000⟩) =
      .ok { TableName := "books"
            KeyConditionExpression :=
              "author" ++ " = :pkvalue" ++ " and " ++ "created" ++
                " between :skvalue1 and :skvalue2 "
            ExpressionAttributeValues :=
              [(":pkvalue", JSVal.str "stephen king"),
                (":skvalue1", JSVal.num 946702800000),
                (":skvalue2", JSVal.num 1262322000000)] } :=
  ⟨rfl, (constructQueryParams_expressions "books" "author" (JSVal.str "stephen king")
    "created" ⟨some "between", JSVal.undef, JSVal.num 946702800000,
      JSVal.num 1262322000000⟩).2.1 rfl⟩

/-- C9: a non-empty string passed as the `sortKeyValueOrKeyCondition`
argument (as `queryTable` and `queryTableWithAutoPagination` forward it)
yields a `begins_with` condition on the sort key, not an equality: the key
condition becomes `<pk> = :pkvalue and begins_with(<sk>, :skvalue)` with the
string bound to `:skvalue`. -/
theorem queryTable_string_is_begins_with (tableName primaryKey : String)
    (primaryKeyValue : JSVal) (sortKey : String) (s : String) (h : s ≠ "") :
    _constructQueryParams tableName primaryKey primaryKeyValue sortKey (.str s) =
      .ok { TableName := tableName
            KeyConditionExpression :=
              primaryKey ++ " = :pkvalue" ++ " and begins_with(" ++ sortKey ++ ", :skvalue)"
            ExpressionAttributeValues :=
              [(":pkvalue", primaryKeyValue), (":skvalue", JSVal.str s)] } := by
  simp [_constructQueryParams, h]

theorem queryTable_string_is_begins_with_witness :
    "the shining" ≠ "" ∧
    _constructQueryParams "books" "author" (JSVal.str "stephen king") "title"
        (.str "the shining") =
      .ok { TableName := "books"
            KeyConditionExpression :=
              "author" ++ " = :pkvalue" ++ " and begins_with(" ++ "title" ++ ", :skvalue)"
            ExpressionAttributeValues :=
              [(":pkvalue", JSVal.str "stephen king"),
                (":skvalue", JSVal.str "the shining")] } :=
  ⟨by decide, queryTable_string_is_begins_with "books" "author"
    (JSVal.str "stephen king") "title" "the shining" (by decide)⟩

/-- C3: `_buildFilterQuery` (backing `scanTable` and
`scanTableWithAutoPagination`) raises an error exactly when the filter's
operation (defaulting to `"="`) is outside the allow-list
`=, !=, >, >=, <, <=, between, exists, not exists, contains, not contains,
begins_with`; on every allow-listed operation it returns an expression
without error. -/
theorem buildFilterQuery_error_iff (filter : Filter) :
    (∃ fq, _buildFilterQuery filter = .ok fq) ↔
      validFilterOperations.contains (filter.operation.getD "=") = true := by
  unfold _buildFilterQuery
  cases h : validFilterOperations.contains (filter.operation.getD "=") <;> simp only [h]
  · simp
  · refine iff_of_true ?_ trivial
    simp only [Bool.not_true, Bool.false_eq_true, if_false]
    split
    · exact ⟨_, rfl⟩
    split
    · exact ⟨_, rfl⟩
    split
    · exact ⟨_, rfl⟩
    split
    · exact ⟨_, rfl⟩
    · exact ⟨_, rfl⟩

/-- Folding the remaining filters after the first keeps appending
`" and " ++ expression` and concatenating the bindings. -/
lemma scanFilterFold_spec (rest : List Filter) :
    ∀ (l : List FilterQuery) (i : Nat) (params : ScanParams) (e : String)
      (vals : List (String × JSVal)),
      0 < i → params.FilterExpression = some e →
      params.ExpressionAttributeValues = some vals →
      buildFilterQueries rest = .ok l →
      scanFilterFold rest i params = .ok
        ⟨params.TableName,
          some (l.foldl (fun acc fq => acc ++ " and " ++ fq.expression) e),
          some (vals ++ (l.map FilterQuery.expressionAttributeValues).flatten)⟩ := by
  induction rest with
  | nil =>
    intro l i params e vals _ hFE hEAV hl
    simp only [buildFilterQueries] at hl
    injection hl with hl
    subst hl
    simp [scanFilterFold, ← hFE, ← hEAV]
  | cons f rest ih =>
    intro l i params e vals hi hFE hEAV hl
    simp only [buildFilterQueries] at hl
    cases hf : _buildFilterQuery f with
    | error err =>
      rw [hf, except_error_bind] at hl
      exact absurd hl (by simp)
    | ok fq =>
      rw [hf, except_ok_bind] at hl
      cases hrest : buildFilterQueries rest with
      | error err =>
        rw [hrest, except_error_bind] at hl
        exact absurd hl (by simp)
      | ok fqs =>
        rw [hrest, except_ok_bind] at hl
        injection hl with hl
        subst hl
        have ih' := ih fqs (i + 1)
          (⟨params.TableName, some (e ++ " and " ++ fq.expression),
            some (vals ++ fq.expressionAttributeValues)⟩ : ScanParams)
          (e ++ " and " ++ fq.expression) (vals ++ fq.expressionAttributeValues)
          (Nat.succ_pos i) rfl rfl hrest
        simp only [scanFilterFold, hf, except_ok_bind, hFE, hEAV,
          Option.getD_some, if_pos hi]
        rw [ih']
        simp [List.append_assoc]

lemma joinWithAnd_foldl (l : List String) :
    ∀ e : String, l.foldl (fun acc x => acc ++ " and " ++ x) e =
      joinWithAnd (e :: l) := by
  induction l with
  | nil => intro e; rfl
  | cons x xs ih =>
    intro e
    rw [List.foldl_cons, ih (e ++ " and " ++ x)]
    cases xs with
    | nil => rfl
    | cons y ys => simp [joinWithAnd, String.append_assoc]

/-- C6: on a non-empty filter list whose operations all pass the allow-list
(so that every `_buildFilterQuery` call returns a filter query),
`_constructScanParams` sets `FilterExpression` to the individual filter
expressions joined by `" and "` in list order and
`ExpressionAttributeValues` to the union (ordered concatenation) of the
filters' bindings. -/
theorem constructScanParams_joins_filters (tableName : String)
    (fs : List Filter) (l : List FilterQuery) (hne : fs ≠ [])
    (h : buildFilterQueries fs = .ok l) :
    _constructScanParams tableName (.many fs) = .ok
      ⟨tableName, some (joinWithAnd (l.map FilterQuery.expression)),
        some ((l.map FilterQuery.expressionAttributeValues).flatten)⟩ := by
  cases fs with
  | nil => exact absurd rfl hne
  | cons f rest =>
    simp only [buildFilterQueries] at h
    cases hf : _buildFilterQuery f with
    | error err =>
      rw [hf, except_error_bind] at h
      exact absurd h (by simp)
    | ok fq =>
      rw [hf, except_ok_bind] at h
      cases hrest : buildFilterQueries rest with
      | error err =>
        rw [hrest, except_error_bind] at h
        exact absurd h (by simp)
      | ok fqs =>
        rw [hrest, except_ok_bind] at h
        injection h with h
        subst h
        have hfold := scanFilterFold_spec rest fqs 1
          (⟨tableName, some fq.expression, some fq.expressionAttributeValues⟩ :
            ScanParams)
          fq.expression fq.expressionAttributeValues Nat.one_pos rfl rfl hrest
        simp only [_constructScanParams, scanFilterFold, hf, except_ok_bind,
          Nat.lt_irrefl, if_false]
        rw [hfold]
        have hje : List.foldl (fun acc fq => acc ++ " and " ++ fq.expression)
            fq.expression fqs =
            joinWithAnd (List.map FilterQuery.expression (fq :: fqs)) := by
          rw [List.map_cons, ← joinWithAnd_foldl, ← List.foldl_map]
        rw [hje]
        simp

theorem constructScanParams_joins_filters_witness :
    ([(⟨"title", some "contains", JSVal.str "fantasy", JSVal.undef, JSVal.undef⟩ : Filter),
        ⟨"year", some ">", JSVal.num 2010, JSVal.undef, JSVal.undef⟩] ≠ []) ∧
    (buildFilterQueries
        [⟨"title", some "contains", JSVal.str "fantasy", JSVal.undef, JSVal.undef⟩,
          ⟨"year", some ">", JSVal.num 2010, JSVal.undef, JSVal.undef⟩] =
      .ok [⟨"contains(title, :titleValue)", [(":titleValue", JSVal.str "fantasy")]⟩,
        ⟨"year > :yearValue", [(":yearValue", JSVal.num 2010)]⟩]) ∧
    _constructScanParams "books"
        (.many [⟨"title", some "contains", JSVal.str "fantasy", JSVal.undef, JSVal.undef⟩,
          ⟨"year", some ">", JSVal.num 2010, JSVal.undef, JSVal.undef⟩]) =
      .ok ⟨"books",
        some "contains(title, :titleValue) and year > :yearValue",
        some [(":titleValue", JSVal.str "fantasy"), (":yearValue", JSVal.num 2010)]⟩ :=
  ⟨by decide, by rfl,
    constructScanParams_joins_filters "books"
      [⟨"title", some "contains", JSVal.str "fantasy", JSVal.undef, JSVal.undef⟩,
        ⟨"year", some ">", JSVal.num 2010, JSVal.undef, JSVal.undef⟩]
      [⟨"contains(title, :titleValue)", [(":titleValue", JSVal.str "fantasy")]⟩,
        ⟨"year > :yearValue", [(":yearValue", JSVal.num 2010)]⟩]
      (by decide) (by rfl)⟩

end AwsToolbelt
